import Mathlib

/-!
Verification of the Telegram-HTML conversion core of `src/main.py`.

The embedding models the pure conversion pipeline:
  `utf16_units_to_py_index` → `build_raw_spans` → `merge_mergeable_spans`
  → `to_telegram_html` (the stack renderer with `close_until`).

Host text is modelled as `List Char` (a Python `str` is a sequence of code
points; indexing/slicing is positional).  Telegram entities are modelled by
the `MessageEntity` structure.  CPython's `id(e)` — used by the source as an
opaque per-object span identity — is modelled by the position of the entity
in the input list (each entity arriving from Telegram is a distinct object).

The renderer is modelled as producing a list of output `Item`s, one for each
`out.append(...)` the Python code performs (an open tag, a close tag, or one
escaped character); `to_telegram_html` is the concatenation of their strings,
mirroring the final `"".join(out)`.

`merge_mergeable_spans` is fallible: its first partition loop calls
`setdefault` on the list `others` and raises an uncaught `AttributeError`
whenever any non-mergeable span is present, so the merge — and with it
`to_telegram_items` / `to_telegram_html` — returns `Except.error` there,
and `Except.ok` of the converted value on the remaining inputs.
-/

namespace TgHtmlBot

/-- Python `html.escape(s, quote=True)` restricted to one character:
`&`, `<`, `>`, `"`, `'` become entities, anything else is unchanged. -/
def html_escape_char (c : Char) : String :=
  if c = '&' then "&amp;"
  else if c = '<' then "&lt;"
  else if c = '>' then "&gt;"
  else if c = '"' then "&quot;"
  else if c = '\'' then "&#x27;"
  else String.singleton c

/-- Python `html.escape(s, quote=True)`: each character escaped in place. -/
def html_escape (s : String) : String :=
  String.join (s.data.map html_escape_char)

/-- `html_escape` applied to a text modelled as a character list. -/
def html_escape_list (cs : List Char) : String :=
  String.join (cs.map html_escape_char)

/-- The characters Python's `str.isspace` / `str.split()` / `str.strip()`
treat as whitespace (Unicode whitespace as used by CPython `str`). -/
def isPyWhitespace (c : Char) : Bool :=
  let n := c.toNat
  decide (n = 0x20 ∨ (0x9 ≤ n ∧ n ≤ 0xD) ∨ (0x1C ≤ n ∧ n ≤ 0x1F) ∨ n = 0x85 ∨
    n = 0xA0 ∨ n = 0x1680 ∨ (0x2000 ≤ n ∧ n ≤ 0x200A) ∨ n = 0x2028 ∨ n = 0x2029 ∨
    n = 0x202F ∨ n = 0x205F ∨ n = 0x3000)

/-- Telegram user attached to a `text_mention` entity (only the `id` field is
consumed by the source). -/
structure User where
  id : Int
deriving Repr, DecidableEq

/-- A Telegram message entity: `type`, UTF-16 `offset`/`length`, and the
kind-specific extra data (`url` for `text_link`, `user` for `text_mention`).
`etype_str` of the source is the identity here because `type` is already a
string. -/
structure MessageEntity where
  type : String
  offset : Int
  length : Int
  url : Option String := none
  user : Option User := none
deriving Repr, DecidableEq

/-- The `while i < n and u < unit_pos` loop of `utf16_units_to_py_index`:
characters above the BMP (code point > 0xFFFF) count as two UTF-16 units,
all others as one. -/
def utf16_loop (unit_pos : Int) : List Char → Int → Nat → Nat
  | [], _, i => i
  | c :: rest, u, i =>
      if u < unit_pos then
        utf16_loop unit_pos rest (u + (if c.toNat > 0xFFFF then 2 else 1)) (i + 1)
      else i

/-- `utf16_units_to_py_index(s, unit_pos)` of the source: translate a UTF-16
code-unit position into a code-point index of the host string. -/
def utf16_units_to_py_index (s : List Char) (unit_pos : Int) : Nat :=
  if unit_pos ≤ 0 then 0 else utf16_loop unit_pos s 0 0

/-- `basic_tags_for_type` of the source: the open/close tag pair for an
entity type, `none` when the source returns `(None, None)`.  Python's
truthiness tests `and href` / `and user_id` are modelled explicitly:
an empty href string and a zero user id are falsy. -/
def basic_tags_for_type (etype : String) (href : Option String)
    (user_id : Option Int) : Option (String × String) :=
  if etype = "bold" then some ("<b>", "</b>")
  else if etype = "italic" then some ("<i>", "</i>")
  else if etype = "underline" then some ("<u>", "</u>")
  else if etype = "strikethrough" then some ("<s>", "</s>")
  else if etype = "spoiler" then some ("<span class=\"tg-spoiler\">", "</span>")
  else if etype = "code" then some ("<code>", "</code>")
  else if etype = "pre" then some ("<pre>", "</pre>")
  else if etype = "text_link" then
    match href with
    | some h => if h = "" then none
        else some ("<a href=\"" ++ html_escape h ++ "\">", "</a>")
    | none => none
  else if etype = "text_mention" then
    match user_id with
    | some uid => if uid = 0 then none
        else some ("<a href=\"tg://user?id=" ++ toString uid ++ "\">", "</a>")
    | none => none
  else if etype = "url" then
    match href with
    | some h => if h = "" then none
        else some ("<a href=\"" ++ html_escape h ++ "\">", "</a>")
    | none => none
  else if etype = "email" then
    match href with
    | some h => if h = "" then none
        else some ("<a href=\"mailto:" ++ html_escape h ++ "\">", "</a>")
    | none => none
  else if etype = "mention" then
    match href with
    | some h => if h = "" then none
        else some ("<a href=\"https://t.me/" ++ html_escape h ++ "\">", "</a>")
    | none => none
  else if etype = "blockquote" then some ("<blockquote>", "</blockquote>")
  else none

/-- The `TAG_PRIORITY` table of the source. -/
def TAG_PRIORITY (etype : String) : Option Int :=
  if etype = "blockquote" then some (-10)
  else if etype = "text_link" ∨ etype = "text_mention" ∨ etype = "url" ∨
      etype = "email" ∨ etype = "mention" then some 0
  else if etype = "bold" then some 10
  else if etype = "italic" then some 11
  else if etype = "underline" then some 12
  else if etype = "strikethrough" then some 13
  else if etype = "spoiler" then some 14
  else if etype = "code" then some 20
  else if etype = "pre" then some 21
  else none

def DEFAULT_PRIORITY : Int := 15

/-- `tag_priority` of the source: `TAG_PRIORITY.get(etype, DEFAULT_PRIORITY)`. -/
def tag_priority (etype : String) : Int :=
  (TAG_PRIORITY etype).getD DEFAULT_PRIORITY

/-- The `MERGEABLE` set of the source. -/
def MERGEABLE : List String := ["bold", "italic", "underline", "strikethrough"]

/-- A span produced by `build_raw_spans` (`open`/`close` of the Python dict
are `openTag`/`closeTag` here since `open` is reserved in Lean; `end` is
`stop`). -/
structure Span where
  sid : Nat
  type : String
  start : Nat
  stop : Nat
  openTag : String
  closeTag : String
  priority : Int
deriving Repr, DecidableEq, Inhabited

/-- Python slice `text[a:b]` for `0 ≤ a, b`. -/
def pySlice (text : List Char) (a b : Nat) : List Char :=
  (text.drop a).take (b - a)

/-- Python `"".join(s.split())`: remove every whitespace character. -/
def removeWs (cs : List Char) : List Char :=
  cs.filter (fun c => !isPyWhitespace c)

/-- Python `s.strip()`: drop leading and trailing whitespace. -/
def stripWs (cs : List Char) : List Char :=
  ((cs.dropWhile isPyWhitespace).reverse.dropWhile isPyWhitespace).reverse

/-- The tail of one `build_raw_spans` iteration: `if not open_tag: continue`
followed by `spans.append({...})` — build the span dict from the resolved
tag pair, or skip the entity when there is none. -/
def span_of_tags (idx : Nat) (etype : String) (start stop : Nat)
    (tags : Option (String × String)) : Option Span :=
  match tags with
  | none => none
  | some (o, c) =>
      some { sid := idx, type := etype, start := start, stop := stop,
             openTag := o, closeTag := c, priority := tag_priority etype }

/-- One iteration of the `for e in entities` loop of `build_raw_spans`:
the span built for entity `e` sitting at position `idx` of the entity list
(`idx` models CPython's `id(e)` as the opaque span identity), or `none`
when the source hits a `continue`. -/
def build_span (text : List Char) (idx : Nat) (e : MessageEntity) : Option Span :=
  let etype := e.type
  let start := utf16_units_to_py_index text e.offset
  let stop := utf16_units_to_py_index text (e.offset + e.length)
  if start ≥ stop ∨ stop > text.length then none
  else
    let substr := pySlice text start stop
    let href : Option String :=
      if etype = "text_link" then
        match e.url with
        | some u => if u = "" then none else some u
        | none => none
      else if etype = "url" then some (removeWs substr).asString
      else if etype = "email" then some (removeWs substr).asString
      else if etype = "mention" then
        some (match stripWs substr with
              | '@' :: rest => rest.asString
              | username => username.asString)
      else none
    let user_id : Option Int :=
      if etype = "text_mention" then e.user.map User.id else none
    if etype ∈ MERGEABLE ∧ stripWs substr = [] then none
    else span_of_tags idx etype start stop (basic_tags_for_type etype href user_id)

/-- The `for e in entities` loop of `build_raw_spans`, carrying the running
entity position used as span identity. -/
def build_raw_aux (text : List Char) : Nat → List MessageEntity → List Span
  | _, [] => []
  | i, e :: rest =>
      match build_span text i e with
      | some s => s :: build_raw_aux text (i + 1) rest
      | none => build_raw_aux text (i + 1) rest

/-- `build_raw_spans` of the source (an absent entity list is the empty
list, for which the source returns `[]` — the base case of the loop). -/
def build_raw_spans (text : List Char) (entities : List MessageEntity) : List Span :=
  build_raw_aux text 0 entities

/-- Stable insertion of `a` into a sorted list: `a` goes after every
element `b` with `le b a`, so equal elements keep their original order. -/
def pyInsert (le : α → α → Bool) (a : α) : List α → List α
  | [] => [a]
  | b :: bs => if le b a then b :: pyInsert le a bs else a :: b :: bs

/-- Python's stable `list.sort` under a total boolean preorder `le`,
modelled as a stable insertion sort (structural, so it evaluates in the
kernel; stability matches CPython's Timsort). -/
def pySort (le : α → α → Bool) (l : List α) : List α :=
  l.foldl (fun acc a => pyInsert le a acc) []

/-- The sort key `lambda x: (x["start"], x["end"])` of
`merge_mergeable_spans`, as a boolean total preorder. -/
def spanLe (a b : Span) : Bool :=
  decide (a.start < b.start ∨ (a.start = b.start ∧ a.stop ≤ b.stop))

/-- The accumulator scan of `merge_mergeable_spans` over an already sorted
run of same-kind spans: flush `cur` when the gap to the next span is
non-empty and not all-whitespace, otherwise extend `cur.stop` to the max. -/
def mergeRun (text : List Char) : Span → List Span → List Span
  | cur, [] => [cur]
  | cur, nxt :: rest =>
      let gap := pySlice text cur.stop nxt.start
      if gap ≠ [] ∧ ¬ gap.all isPyWhitespace then
        cur :: mergeRun text nxt rest
      else
        mergeRun text { cur with stop := max cur.stop nxt.stop } rest

/-- The body of `for t in MERGEABLE` in `merge_mergeable_spans`: sort one
kind's spans by `(start, end)` and scan them with the accumulator. -/
def merge_one_type (text : List Char) (arr : List Span) : List Span :=
  match pySort spanLe arr with
  | [] => []
  | cur :: rest => mergeRun text cur rest

/-- The corrected partition and per-kind merge of `merge_mergeable_spans`
(source lines 123-146): the "explicit separation" announced by the
source's own line-122 comment, followed by the merge scan, with
non-mergeable spans passed through.  This is exactly what
`merge_mergeable_spans` returns on every input where the source does not
raise, and the author's documented intent on the rest.  (The CPython set
iteration order over `MERGEABLE` is fixed here to the literal order; the
rendered output is insensitive to it because every later sort key contains
the unique span identity.) -/
def merge_mergeable_spans_fixed (text : List Char) (spans : List Span) : List Span :=
  (MERGEABLE.map fun t =>
      merge_one_type text (spans.filter fun s => s.type == t)).flatten
    ++ spans.filter (fun s => decide (s.type ∉ MERGEABLE))

/-- `merge_mergeable_spans` of the source.  Its first partition loop
(lines 120-121) evaluates
`(by_type if s["type"] in MERGEABLE else others).setdefault(...)`, and
`others` is a list, which has no `setdefault`: the call raises an uncaught
`AttributeError` as soon as any non-mergeable span is present — modelled
as `Except.error`.  When every span is mergeable the loop only touches the
`by_type` dict, whose contents are then discarded by the reassignment at
lines 123-129, and the corrected partition and merge run. -/
def merge_mergeable_spans (text : List Char) (spans : List Span) :
    Except String (List Span) :=
  if spans.any fun s => decide (s.type ∉ MERGEABLE) then
    Except.error "AttributeError: 'list' object has no attribute 'setdefault'"
  else Except.ok (merge_mergeable_spans_fixed text spans)

/-- One element the renderer appends to `out`: an open tag, a close tag
(both remembering which span identity they belong to), or one escaped
character of the text. -/
inductive Item where
  | openT (sid : Nat) (tag : String)
  | closeT (sid : Nat) (tag : String)
  | chr (s : String)
deriving Repr, DecidableEq

/-- The string a rendered item contributes to the output. -/
def Item.str : Item → String
  | openT _ t => t
  | closeT _ t => t
  | chr s => s

/-- The `by_id` dictionary of the renderer: the last span carrying a given
identity wins, as with Python dict assignment. -/
def findSpan (spans : List Span) (sid : Nat) : Span :=
  (spans.reverse.find? (fun s => s.sid == sid)).getD default

/-- The start-event sort key `((-length, priority), span_id)`. -/
def startKey (s : Span) : (Int × Int) × Nat :=
  ((-((s.stop - s.start : Nat) : Int), s.priority), s.sid)

/-- The end-event sort key `((length, -priority), span_id)`. -/
def endKey (s : Span) : (Int × Int) × Nat :=
  ((((s.stop - s.start : Nat) : Int), -s.priority), s.sid)

/-- Lexicographic comparison of event keys, as Python compares the tuples
`((a, b), id)`. -/
def keyLe (a b : (Int × Int) × Nat) : Bool :=
  decide (a.1.1 < b.1.1 ∨ (a.1.1 = b.1.1 ∧
    (a.1.2 < b.1.2 ∨ (a.1.2 = b.1.2 ∧ a.2 ≤ b.2))))

/-- `starts[pos]` after the `starts[pos].sort()` of the renderer: the span
identities opening at `pos`, sorted by start key. -/
def startsAt (spans : List Span) (pos : Nat) : List Nat :=
  (pySort (fun a b => keyLe (startKey a) (startKey b))
    (spans.filter fun s => s.start == pos)).map Span.sid

/-- `ends[pos]` after the `ends[pos].sort()` of the renderer: the span
identities closing at `pos`, sorted by end key. -/
def endsAt (spans : List Span) (pos : Nat) : List Nat :=
  (pySort (fun a b => keyLe (endKey a) (endKey b))
    (spans.filter fun s => s.stop == pos)).map Span.sid

/-- The `while open_stack and open_stack[-1] != span_id` loop of
`close_until`: pop and emit close tags until `sid` (or the bottom) is
reached, remembering the popped identities in `reopen` in pop order.
The stack is a `List Nat` with its top at the head. -/
def popCloses (spans : List Span) (sid : Nat) :
    List Nat → List Item → List Nat → List Nat × List Item × List Nat
  | [], out, reopen => ([], out, reopen)
  | top :: rest, out, reopen =>
      if top = sid then (top :: rest, out, reopen)
      else popCloses spans sid rest
        (out ++ [Item.closeT top (findSpan spans top).closeTag]) (reopen ++ [top])

/-- The tail of `close_until` after its `while` loop: close the target
itself if it is now on top (the `if open_stack and open_stack[-1] == span_id`
of the source), then re-open (and re-push) the remembered spans in reverse
pop order. -/
def closeUntilFinish (spans : List Span) (sid : Nat) :
    List Nat × List Item × List Nat → List Nat × List Item
  | (st1, out1, reopen) =>
      (reopen ++ (match st1 with
        | top :: rest => if top = sid then rest else top :: rest
        | [] => []),
       (match st1 with
        | top :: _ =>
            if top = sid then out1 ++ [Item.closeT sid (findSpan spans sid).closeTag]
            else out1
        | [] => out1) ++
         reopen.reverse.map (fun j => Item.openT j (findSpan spans j).openTag))

/-- `close_until(span_id)` of the renderer: close everything above `sid`,
close `sid` itself if found, then re-open the remembered spans. -/
def close_until (spans : List Span) (sid : Nat) (st : List Nat)
    (out : List Item) : List Nat × List Item :=
  closeUntilFinish spans sid (popCloses spans sid st out [])

/-- The `while to_close` loop of the renderer: repeatedly pick, among the
pending closings still present on the stack, the one deepest in the stack
(closest to the top, i.e. with the largest Python `open_stack.index`),
`close_until` it and remove it from the pending list; stop when no pending
closing is on the stack.  Fuel is the initial length of `to_close`, an
upper bound on the number of iterations. -/
def processCloses (spans : List Span) :
    Nat → List Nat → List Nat → List Item → List Nat × List Item
  | 0, _, st, out => (st, out)
  | fuel + 1, to_close, st, out =>
      match st.find? (fun sid => decide (sid ∈ to_close)) with
      | none => (st, out)
      | some d =>
          processCloses spans fuel (to_close.erase d)
            (close_until spans d st out).1 (close_until spans d st out).2

/-- The opening phase and character emission of one walk position: emit
open tags at `i` in sorted order (pushing each on the stack), then — when
`i` is not the end position — one escaped character. -/
def renderOpensChar (spans : List Span) (text : List Char) (i : Nat)
    (r : List Nat × List Item) : List Nat × List Item :=
  if i < text.length then
    ((startsAt spans i).reverse ++ r.1,
      (r.2 ++ (startsAt spans i).map
        (fun sid => Item.openT sid (findSpan spans sid).openTag)) ++
        [Item.chr (html_escape_char (text.getD i ' '))])
  else
    ((startsAt spans i).reverse ++ r.1,
      r.2 ++ (startsAt spans i).map
        (fun sid => Item.openT sid (findSpan spans sid).openTag))

/-- The body of `for i in range(n + 1)` of `to_telegram_html`: closings at
`i`, then openings at `i`, then the escaped character. -/
def renderPos (spans : List Span) (text : List Char)
    (acc : List Nat × List Item) (i : Nat) : List Nat × List Item :=
  renderOpensChar spans text i
    (processCloses spans (endsAt spans i).length (endsAt spans i) acc.1 acc.2)

/-- The walk over positions `0 .. len(text)` followed by the safety net
that closes whatever is still on the stack, top first. -/
def finishRender (spans : List Span) (text : List Char) : List Item :=
  ((List.range (text.length + 1)).foldl (renderPos spans text) ([], [])).2 ++
    ((List.range (text.length + 1)).foldl (renderPos spans text) ([], [])).1.map
      (fun sid => Item.closeT sid (findSpan spans sid).closeTag)

/-- `to_telegram_html` of the source, producing the list of appended output
items (before the final `"".join`), or the uncaught `AttributeError`
propagating out of `merge_mergeable_spans`.  Empty text returns before the
merge is reached. -/
def to_telegram_items (text : List Char) (entities : List MessageEntity) :
    Except String (List Item) :=
  if text = [] then Except.ok []
  else (merge_mergeable_spans text (build_raw_spans text entities)).map
    fun spans => finishRender spans text

/-- `to_telegram_html` of the source: the joined output string, or the
uncaught exception. -/
def to_telegram_html (text : List Char) (entities : List MessageEntity) :
    Except String String :=
  (to_telegram_items text entities).map fun its => String.join (its.map Item.str)

/-- The conversion pipeline with the corrected partition of
`merge_mergeable_spans_fixed`: what `to_telegram_html` returns whenever it
does not raise, and the documented intent on every input. -/
def to_telegram_items_fixed (text : List Char) (entities : List MessageEntity) :
    List Item :=
  if text = [] then []
  else finishRender
    (merge_mergeable_spans_fixed text (build_raw_spans text entities)) text

/-- The joined output string of the corrected pipeline. -/
def to_telegram_html_fixed (text : List Char) (entities : List MessageEntity) :
    String :=
  String.join ((to_telegram_items_fixed text entities).map Item.str)

/-! ## Verification-side definitions

`checkFrom st items` scans the rendered items with an explicit stack of
open span identities: an open tag pushes, a close tag must match the most
recent still-open tag (it pops), a character changes nothing.  `none`
means the scan found a close tag with no matching unclosed open tag;
`some []` from an empty initial stack means the whole output is balanced
and correctly nested. -/

def countOpens : List Item → Nat
  | [] => 0
  | Item.openT _ _ :: rest => countOpens rest + 1
  | Item.closeT _ _ :: rest => countOpens rest
  | Item.chr _ :: rest => countOpens rest

def countCloses : List Item → Nat
  | [] => 0
  | Item.openT _ _ :: rest => countCloses rest
  | Item.closeT _ _ :: rest => countCloses rest + 1
  | Item.chr _ :: rest => countCloses rest

def checkFrom : List Nat → List Item → Option (List Nat)
  | st, [] => some st
  | st, Item.openT sid _ :: rest => checkFrom (sid :: st) rest
  | st, Item.closeT sid _ :: rest =>
      match st with
      | top :: st' => if top = sid then checkFrom st' rest else none
      | [] => none
  | st, Item.chr _ :: rest => checkFrom st rest

/-- Provenance of one rendered item: an escaped text character, or a tag
belonging to one of the given spans. -/
def itemFrom (spans : List Span) (text : List Char) : Item → Prop
  | Item.chr s => ∃ c, c ∈ text ∧ s = html_escape_char c
  | Item.openT sid t => ∃ sp, sp ∈ spans ∧ sp.sid = sid ∧ t = sp.openTag
  | Item.closeT sid t => ∃ sp, sp ∈ spans ∧ sp.sid = sid ∧ t = sp.closeTag

/-- Every identity in the list is the identity of one of the spans. -/
def sidsFrom (spans : List Span) (st : List Nat) : Prop :=
  ∀ sid ∈ st, ∃ sp ∈ spans, sp.sid = sid

/-- The renderer invariant tying the emitted output to the open stack. -/
def GoodState (spans : List Span) (text : List Char)
    (acc : List Nat × List Item) : Prop :=
  checkFrom [] acc.2 = some acc.1 ∧ sidsFrom spans acc.1 ∧
    ∀ it ∈ acc.2, itemFrom spans text it

/-- Scanner for an escaped text fragment: no raw `<` or `>` anywhere, and
every `&` must begin one of the five entities `html.escape` produces
(`&amp;`, `&lt;`, `&gt;`, `&quot;`, `&#x27;`).  The first argument is the
tail of the entity currently being matched ( `[]` when outside one). -/
def escScan : List Char → List Char → Bool
  | p :: ps, c :: rest => if c = p then escScan ps rest else false
  | _ :: _, [] => false
  | [], [] => true
  | [], c :: rest =>
      if c = '<' then false
      else if c = '>' then false
      else if c = '&' then
        match rest with
        | [] => false
        | d :: rest' =>
            if d = 'a' then escScan ['m', 'p', ';'] rest'
            else if d = 'l' then escScan ['t', ';'] rest'
            else if d = 'g' then escScan ['t', ';'] rest'
            else if d = 'q' then escScan ['u', 'o', 't', ';'] rest'
            else if d = '#' then escScan ['x', '2', '7', ';'] rest'
            else false
      else escScan [] rest

/-- An output fragment is escape-safe: it contains no raw `<` or `>` and
ampersands only as heads of the escape entities. -/
def escFragOk (s : String) : Bool := escScan [] s.data

/-- The fixed open tags the source can emit (no attribute values). -/
def fixedOpenTags : List String :=
  ["<b>", "<i>", "<u>", "<s>", "<span class=\"tg-spoiler\">", "<code>",
   "<pre>", "<blockquote>"]

/-- The close tags the source can emit. -/
def fixedCloseTags : List String :=
  ["</b>", "</i>", "</u>", "</s>", "</span>", "</code>", "</pre>", "</a>",
   "</blockquote>"]

/-- An open tag is safe when it is one of the fixed tags, or a link tag
whose entire attribute value is the `html.escape` image of some string, or
the user-profile link whose attribute value is an integer (escape-safe
digits). -/
def openTagSafe (t : String) : Prop :=
  t ∈ fixedOpenTags ∨
    (∃ h : String,
      t = "<a href=\"" ++ html_escape h ++ "\">" ∨
      t = "<a href=\"mailto:" ++ html_escape h ++ "\">" ∨
      t = "<a href=\"https://t.me/" ++ html_escape h ++ "\">") ∨
    (∃ u : Int, t = "<a href=\"tg://user?id=" ++ toString u ++ "\">" ∧
      escFragOk (toString u) = true)

/-- Escape-safety of one rendered item: characters are escape-safe
fragments, tags are among the source's templates with escaped attribute
values. -/
def itemSafe : Item → Prop
  | Item.chr s => escFragOk s = true
  | Item.openT _ t => openTagSafe t
  | Item.closeT _ t => t ∈ fixedCloseTags

/-- Total UTF-16 length of a text: 2 units per character above the BMP,
1 per other character (the same accounting as `utf16_loop`). -/
def utf16Len (cs : List Char) : Int :=
  (cs.map fun c => if c.toNat > 0xFFFF then (2 : Int) else 1).sum

/-! ## Theorems: the well-formedness checker -/

theorem checkFrom_append (l1 l2 : List Item) :
    ∀ st, checkFrom st (l1 ++ l2) =
      (checkFrom st l1).bind fun st' => checkFrom st' l2 := by
  induction l1 with
  | nil => intro st; simp [checkFrom]
  | cons it rest ih =>
      intro st
      cases it with
      | openT sid t => simp [checkFrom, ih]
      | closeT sid t =>
          cases st with
          | nil => simp [checkFrom]
          | cons top st' =>
              by_cases h : top = sid <;> simp [checkFrom, h, ih]
      | chr s => simp [checkFrom, ih]

theorem checkFrom_opens (f : Nat → String) :
    ∀ (sids : List Nat) (st : List Nat),
      checkFrom st (sids.map fun j => Item.openT j (f j)) =
        some (sids.reverse ++ st) := by
  intro sids
  induction sids with
  | nil => intro st; simp [checkFrom]
  | cons j rest ih => intro st; simp [checkFrom, ih]

theorem checkFrom_closes (f : Nat → String) :
    ∀ (sids : List Nat) (st : List Nat),
      checkFrom (sids ++ st) (sids.map fun j => Item.closeT j (f j)) = some st := by
  intro sids
  induction sids with
  | nil => intro st; simp [checkFrom]
  | cons j rest ih => intro st; simp [checkFrom, ih]

theorem checkFrom_count :
    ∀ (l : List Item) (st st' : List Nat), checkFrom st l = some st' →
      countOpens l + st.length = countCloses l + st'.length := by
  intro l
  induction l with
  | nil =>
      intro st st' h
      simp only [checkFrom, Option.some.injEq] at h
      simp [countOpens, countCloses, h]
  | cons it rest ih =>
      intro st st' h
      cases it with
      | openT sid t =>
          have := ih (sid :: st) st' h
          simp only [countOpens, countCloses, List.length_cons] at this ⊢
          omega
      | closeT sid t =>
          cases st with
          | nil => simp [checkFrom] at h
          | cons top st0 =>
              by_cases htop : top = sid
              · rw [checkFrom, if_pos htop] at h
                have := ih st0 st' h
                simp only [countOpens, countCloses, List.length_cons] at this ⊢
                omega
              · rw [checkFrom, if_neg htop] at h
                exact absurd h (by simp)
      | chr s =>
          have := ih st st' h
          simp only [countOpens, countCloses] at this ⊢
          omega

theorem checkFrom_isSome_of_append {l1 l2 : List Item} {st st' : List Nat}
    (h : checkFrom st (l1 ++ l2) = some st') : (checkFrom st l1).isSome := by
  rw [checkFrom_append] at h
  cases hc : checkFrom st l1 with
  | none => simp [hc] at h
  | some s => simp

/-! ## Membership facts for the stable sort -/

theorem mem_pyInsert (le : α → α → Bool) (a x : α) :
    ∀ l : List α, x ∈ pyInsert le a l ↔ x = a ∨ x ∈ l := by
  intro l
  induction l with
  | nil => simp [pyInsert]
  | cons b bs ih =>
      simp only [pyInsert]
      by_cases h : le b a = true
      · rw [if_pos h]
        simp only [List.mem_cons, ih]
        tauto
      · rw [if_neg h]
        simp only [List.mem_cons]

theorem foldl_pyInsert_mem (le : α → α → Bool) (x : α) :
    ∀ (l acc : List α),
      x ∈ l.foldl (fun acc a => pyInsert le a acc) acc ↔ x ∈ acc ∨ x ∈ l := by
  intro l
  induction l with
  | nil => intro acc; simp
  | cons b bs ih =>
      intro acc
      rw [List.foldl_cons, ih, mem_pyInsert]
      simp only [List.mem_cons]
      tauto

theorem mem_pySort (le : α → α → Bool) (x : α) (l : List α) :
    x ∈ pySort le l ↔ x ∈ l := by
  unfold pySort
  rw [foldl_pyInsert_mem]
  simp

/-! ## The `by_id` lookup -/

theorem findSpan_mem {spans : List Span} {sid : Nat}
    (h : ∃ sp ∈ spans, sp.sid = sid) :
    findSpan spans sid ∈ spans ∧ (findSpan spans sid).sid = sid := by
  obtain ⟨sp, hmem, hsid⟩ := h
  have hsome : (spans.reverse.find? (fun s => s.sid == sid)).isSome := by
    rw [List.find?_isSome]
    exact ⟨sp, by simpa using hmem, by simp [hsid]⟩
  obtain ⟨a, ha⟩ := Option.isSome_iff_exists.mp hsome
  unfold findSpan
  rw [ha]
  refine ⟨?_, ?_⟩
  · simpa using List.mem_reverse.mp (List.mem_of_find?_eq_some ha)
  · have := List.find?_some ha
    simpa using this

/-! ## Theorems: the renderer invariant

Every item the renderer appends is either one escaped character of the
text or the open/close tag of one of the pipeline's spans, and the checker
stack of the output always coincides with the renderer's own open stack. -/

theorem sidsFrom_nil (spans : List Span) : sidsFrom spans [] := by
  intro sid h
  simp at h

theorem sidsFrom_append {spans : List Span} {a b : List Nat}
    (ha : sidsFrom spans a) (hb : sidsFrom spans b) : sidsFrom spans (a ++ b) := by
  intro sid h
  rcases List.mem_append.mp h with h' | h'
  · exact ha sid h'
  · exact hb sid h'

theorem sidsFrom_reverse {spans : List Span} {a : List Nat}
    (ha : sidsFrom spans a) : sidsFrom spans a.reverse := by
  intro sid h
  exact ha sid (List.mem_reverse.mp h)

theorem itemFrom_openT {spans : List Span} {text : List Char} {sid : Nat}
    (h : ∃ sp ∈ spans, sp.sid = sid) :
    itemFrom spans text (Item.openT sid (findSpan spans sid).openTag) := by
  obtain ⟨hm, hs⟩ := findSpan_mem h
  exact ⟨findSpan spans sid, hm, hs, rfl⟩

theorem itemFrom_closeT {spans : List Span} {text : List Char} {sid : Nat}
    (h : ∃ sp ∈ spans, sp.sid = sid) :
    itemFrom spans text (Item.closeT sid (findSpan spans sid).closeTag) := by
  obtain ⟨hm, hs⟩ := findSpan_mem h
  exact ⟨findSpan spans sid, hm, hs, rfl⟩

theorem forall_mem_append_items {P : Item → Prop} {a b : List Item}
    (ha : ∀ it ∈ a, P it) (hb : ∀ it ∈ b, P it) : ∀ it ∈ a ++ b, P it := by
  intro it h
  rcases List.mem_append.mp h with h' | h'
  · exact ha it h'
  · exact hb it h'

theorem popCloses_good (spans : List Span) (text : List Char) (sid : Nat) :
    ∀ (st : List Nat) (out : List Item) (reopen : List Nat),
      checkFrom [] out = some st →
      sidsFrom spans st → sidsFrom spans reopen →
      (∀ it ∈ out, itemFrom spans text it) →
      checkFrom [] (popCloses spans sid st out reopen).2.1 =
          some (popCloses spans sid st out reopen).1 ∧
        sidsFrom spans (popCloses spans sid st out reopen).1 ∧
        sidsFrom spans (popCloses spans sid st out reopen).2.2 ∧
        (∀ it ∈ (popCloses spans sid st out reopen).2.1, itemFrom spans text it) ∧
        ((popCloses spans sid st out reopen).1 = [] ∨
          ∃ rest, (popCloses spans sid st out reopen).1 = sid :: rest) := by
  intro st
  induction st with
  | nil =>
      intro out reopen hchk hst hre hout
      exact ⟨hchk, hst, hre, hout, Or.inl rfl⟩
  | cons top rest ih =>
      intro out reopen hchk hst hre hout
      by_cases htop : top = sid
      · subst htop
        have hred : popCloses spans top (top :: rest) out reopen =
            (top :: rest, out, reopen) := by
          simp [popCloses]
        rw [hred]
        exact ⟨hchk, hst, hre, hout, Or.inr ⟨rest, rfl⟩⟩
      · have hred : popCloses spans sid (top :: rest) out reopen =
            popCloses spans sid rest
              (out ++ [Item.closeT top (findSpan spans top).closeTag])
              (reopen ++ [top]) := by
          simp [popCloses, htop]
        rw [hred]
        have htopsid : ∃ sp ∈ spans, sp.sid = top := hst top (by simp)
        have hchk' : checkFrom []
            (out ++ [Item.closeT top (findSpan spans top).closeTag]) = some rest := by
          rw [checkFrom_append, hchk]
          simp [checkFrom]
        have hst' : sidsFrom spans rest := by
          intro j hj
          exact hst j (by simp [hj])
        have hre' : sidsFrom spans (reopen ++ [top]) := by
          apply sidsFrom_append hre
          intro j hj
          simp at hj
          subst hj
          exact htopsid
        have hout' : ∀ it ∈ out ++ [Item.closeT top (findSpan spans top).closeTag],
            itemFrom spans text it := by
          apply forall_mem_append_items hout
          intro it hit
          simp at hit
          subst hit
          exact itemFrom_closeT htopsid
        exact ih _ _ hchk' hst' hre' hout'

theorem close_until_good (spans : List Span) (text : List Char) (sid : Nat)
    (st : List Nat) (out : List Item)
    (hchk : checkFrom [] out = some st) (hst : sidsFrom spans st)
    (hout : ∀ it ∈ out, itemFrom spans text it) :
    checkFrom [] (close_until spans sid st out).2 =
        some (close_until spans sid st out).1 ∧
      sidsFrom spans (close_until spans sid st out).1 ∧
      ∀ it ∈ (close_until spans sid st out).2, itemFrom spans text it := by
  have hgood := popCloses_good spans text sid st out [] hchk hst (sidsFrom_nil spans) hout
  unfold close_until
  rcases hP : popCloses spans sid st out [] with ⟨st1, out1, reopen⟩
  rw [hP] at hgood
  obtain ⟨pchk, pst, pre, pout, pshape⟩ := hgood
  have hopensafe : ∀ it ∈ reopen.reverse.map
      (fun j => Item.openT j (findSpan spans j).openTag), itemFrom spans text it := by
    intro it hit
    obtain ⟨j, hj, rfl⟩ := List.mem_map.mp hit
    exact itemFrom_openT (pre j (List.mem_reverse.mp hj))
  rcases pshape with rfl | ⟨rest, rfl⟩
  · have hred : closeUntilFinish spans sid (([] : List Nat), out1, reopen) =
        (reopen ++ [], out1 ++ reopen.reverse.map
          (fun j => Item.openT j (findSpan spans j).openTag)) := by
      simp [closeUntilFinish]
    rw [hred]
    refine ⟨?_, sidsFrom_append pre (sidsFrom_nil spans), ?_⟩
    · rw [checkFrom_append, pchk]
      simp only [Option.some_bind]
      rw [checkFrom_opens]
      simp
    · exact forall_mem_append_items pout hopensafe
  · have hsidmem : ∃ sp ∈ spans, sp.sid = sid := pst sid (by simp)
    have hred : closeUntilFinish spans sid (sid :: rest, out1, reopen) =
        (reopen ++ rest,
          (out1 ++ [Item.closeT sid (findSpan spans sid).closeTag]) ++
            reopen.reverse.map (fun j => Item.openT j (findSpan spans j).openTag)) := by
      simp [closeUntilFinish]
    rw [hred]
    have hchk2 : checkFrom []
        (out1 ++ [Item.closeT sid (findSpan spans sid).closeTag]) = some rest := by
      rw [checkFrom_append, pchk]
      simp [checkFrom]
    have hrest : sidsFrom spans rest := by
      intro j hj
      exact pst j (by simp [hj])
    refine ⟨?_, sidsFrom_append pre hrest, ?_⟩
    · rw [checkFrom_append, hchk2]
      simp only [Option.some_bind]
      rw [checkFrom_opens]
      simp
    · refine forall_mem_append_items (forall_mem_append_items pout ?_) hopensafe
      intro it hit
      rw [List.mem_singleton] at hit
      subst hit
      exact itemFrom_closeT hsidmem

theorem processCloses_good (spans : List Span) (text : List Char) :
    ∀ (fuel : Nat) (to_close st : List Nat) (out : List Item),
      checkFrom [] out = some st → sidsFrom spans st →
      (∀ it ∈ out, itemFrom spans text it) →
      checkFrom [] (processCloses spans fuel to_close st out).2 =
          some (processCloses spans fuel to_close st out).1 ∧
        sidsFrom spans (processCloses spans fuel to_close st out).1 ∧
        ∀ it ∈ (processCloses spans fuel to_close st out).2,
          itemFrom spans text it := by
  intro fuel
  induction fuel with
  | zero =>
      intro to_close st out hchk hst hout
      exact ⟨hchk, hst, hout⟩
  | succ n ih =>
      intro to_close st out hchk hst hout
      cases hfind : st.find? (fun sid => decide (sid ∈ to_close)) with
      | none =>
          have hred : processCloses spans (n + 1) to_close st out = (st, out) := by
            simp [processCloses, hfind]
          rw [hred]
          exact ⟨hchk, hst, hout⟩
      | some d =>
          have hred : processCloses spans (n + 1) to_close st out =
              processCloses spans n (to_close.erase d)
                (close_until spans d st out).1 (close_until spans d st out).2 := by
            simp [processCloses, hfind]
          rw [hred]
          obtain ⟨c1, c2, c3⟩ := close_until_good spans text d st out hchk hst hout
          exact ih _ _ _ c1 c2 c3

theorem renderPos_good (spans : List Span) (text : List Char)
    (acc : List Nat × List Item) (i : Nat) (h : GoodState spans text acc) :
    GoodState spans text (renderPos spans text acc i) := by
  obtain ⟨hchk, hst, hout⟩ := h
  unfold renderPos renderOpensChar
  have hall := processCloses_good spans text
    (endsAt spans i).length (endsAt spans i) acc.1 acc.2 hchk hst hout
  rcases hR : processCloses spans (endsAt spans i).length (endsAt spans i)
    acc.1 acc.2 with ⟨st1, out1⟩
  rw [hR] at hall
  obtain ⟨c1, c2, c3⟩ := hall
  have hopensids : sidsFrom spans (startsAt spans i) := by
    intro sid hsid
    obtain ⟨sp, hsp, rfl⟩ := List.mem_map.mp hsid
    refine ⟨sp, ?_, rfl⟩
    have := (mem_pySort _ sp _).mp hsp
    exact (List.mem_filter.mp this).1
  have hchk2 : checkFrom [] (out1 ++ (startsAt spans i).map
      (fun sid => Item.openT sid (findSpan spans sid).openTag)) =
      some ((startsAt spans i).reverse ++ st1) := by
    rw [checkFrom_append, c1]
    simp only [Option.some_bind]
    rw [checkFrom_opens]
  have hst2 : sidsFrom spans ((startsAt spans i).reverse ++ st1) :=
    sidsFrom_append (sidsFrom_reverse hopensids) c2
  have hout2 : ∀ it ∈ out1 ++ (startsAt spans i).map
      (fun sid => Item.openT sid (findSpan spans sid).openTag),
      itemFrom spans text it := by
    refine forall_mem_append_items c3 ?_
    intro it hit
    obtain ⟨j, hj, rfl⟩ := List.mem_map.mp hit
    exact itemFrom_openT (hopensids j hj)
  by_cases hi : i < text.length
  · rw [if_pos hi]
    refine ⟨?_, hst2, ?_⟩
    · rw [checkFrom_append, hchk2]
      simp [checkFrom]
    · refine forall_mem_append_items hout2 ?_
      intro it hit
      rw [List.mem_singleton] at hit
      subst hit
      refine ⟨text.getD i ' ', ?_, rfl⟩
      rw [List.getD_eq_getElem text ' ' hi]
      exact List.getElem_mem hi
  · rw [if_neg hi]
    exact ⟨hchk2, hst2, hout2⟩

theorem foldl_renderPos_good (spans : List Span) (text : List Char) :
    ∀ (l : List Nat) (acc : List Nat × List Item),
      GoodState spans text acc →
      GoodState spans text (l.foldl (renderPos spans text) acc) := by
  intro l
  induction l with
  | nil => intro acc h; exact h
  | cons i rest ih =>
      intro acc h
      rw [List.foldl_cons]
      exact ih _ (renderPos_good spans text acc i h)

/-- The master invariant of the corrected pipeline's output: the item
sequence is balanced and correctly nested, and each item is an escaped
text character or a tag of one of the pipeline's spans.  Through
`to_telegram_items_ok` this covers every value the faithful pipeline
actually returns. -/
theorem to_telegram_items_good (text : List Char) (ents : List MessageEntity) :
    checkFrom [] (to_telegram_items_fixed text ents) = some [] ∧
      ∀ it ∈ to_telegram_items_fixed text ents,
        itemFrom (merge_mergeable_spans_fixed text (build_raw_spans text ents))
          text it := by
  unfold to_telegram_items_fixed
  by_cases htext : text = []
  · rw [if_pos htext]
    refine ⟨rfl, ?_⟩
    intro it hit
    simp at hit
  · rw [if_neg htext]
    set spans := merge_mergeable_spans_fixed text (build_raw_spans text ents)
      with hspans
    have hinit : GoodState spans text ([], []) := by
      refine ⟨rfl, sidsFrom_nil spans, ?_⟩
      intro it hit
      simp at hit
    have hall := foldl_renderPos_good spans text
      (List.range (text.length + 1)) ([], []) hinit
    unfold finishRender
    rcases hres : (List.range (text.length + 1)).foldl (renderPos spans text)
      ([], []) with ⟨stf, outf⟩
    rw [hres] at hall
    obtain ⟨g1, g2, g3⟩ := hall
    constructor
    · rw [checkFrom_append, g1]
      simp only [Option.some_bind]
      have := checkFrom_closes (fun sid => (findSpan spans sid).closeTag) stf []
      simpa using this
    · refine forall_mem_append_items g3 ?_
      intro it hit
      obtain ⟨j, hj, rfl⟩ := List.mem_map.mp hit
      exact itemFrom_closeT (g2 j hj)

/-- Whatever the faithful pipeline actually returns is the corrected
pipeline's value: `Except.ok` only ever wraps `to_telegram_items_fixed`. -/
theorem to_telegram_items_ok (text : List Char) (ents : List MessageEntity)
    (its : List Item) (h : to_telegram_items text ents = Except.ok its) :
    its = to_telegram_items_fixed text ents := by
  unfold to_telegram_items at h
  unfold to_telegram_items_fixed
  by_cases ht : text = []
  · rw [if_pos ht] at h ⊢
    injection h with hh
    exact hh.symm
  · rw [if_neg ht] at h ⊢
    unfold merge_mergeable_spans at h
    by_cases hany : (build_raw_spans text ents).any fun s =>
        decide (s.type ∉ MERGEABLE)
    · rw [if_pos hany] at h
      simp [Except.map] at h
    · rw [if_neg hany] at h
      simp only [Except.map] at h
      injection h with hh
      exact hh.symm

/-! ## Theorems: escape safety -/

theorem escAux_amp (l : List Char) :
    escScan [] ('&' :: 'a' :: 'm' :: 'p' :: ';' :: l) = escScan [] l := by
  simp [escScan]

theorem escAux_lt (l : List Char) :
    escScan [] ('&' :: 'l' :: 't' :: ';' :: l) = escScan [] l := by
  simp [escScan]

theorem escAux_gt (l : List Char) :
    escScan [] ('&' :: 'g' :: 't' :: ';' :: l) = escScan [] l := by
  simp [escScan]

theorem escAux_quot (l : List Char) :
    escScan [] ('&' :: 'q' :: 'u' :: 'o' :: 't' :: ';' :: l) = escScan [] l := by
  simp [escScan]

theorem escAux_num (l : List Char) :
    escScan [] ('&' :: '#' :: 'x' :: '2' :: '7' :: ';' :: l) = escScan [] l := by
  simp [escScan]

theorem escAux_plain (c : Char) (h1 : c ≠ '<') (h2 : c ≠ '>') (h3 : c ≠ '&')
    (l : List Char) : escScan [] (c :: l) = escScan [] l := by
  rw [escScan.eq_def]
  simp [h1, h2, h3]

theorem escAux_escape_char (c : Char) (l : List Char) :
    escScan [] ((html_escape_char c).data ++ l) = escScan [] l := by
  by_cases h1 : c = '&'
  · subst h1
    rw [show (html_escape_char '&').data = ['&', 'a', 'm', 'p', ';'] from rfl]
    exact escAux_amp l
  · by_cases h2 : c = '<'
    · subst h2
      rw [show (html_escape_char '<').data = ['&', 'l', 't', ';'] from rfl]
      exact escAux_lt l
    · by_cases h3 : c = '>'
      · subst h3
        rw [show (html_escape_char '>').data = ['&', 'g', 't', ';'] from rfl]
        exact escAux_gt l
      · by_cases h4 : c = '"'
        · subst h4
          rw [show (html_escape_char '"').data = ['&', 'q', 'u', 'o', 't', ';'] from rfl]
          exact escAux_quot l
        · by_cases h5 : c = '\''
          · subst h5
            rw [show (html_escape_char '\'').data = ['&', '#', 'x', '2', '7', ';'] from rfl]
            exact escAux_num l
          · have hdata : (html_escape_char c).data = [c] := by
              simp only [html_escape_char, if_neg h1, if_neg h2, if_neg h3,
                if_neg h4, if_neg h5]
              rfl
            rw [hdata]
            exact escAux_plain c h2 h3 h1 l

theorem escAux_escape_list (cs : List Char) :
    ∀ l, escScan [] ((cs.map fun c => (html_escape_char c).data).flatten ++ l) =
      escScan [] l := by
  induction cs with
  | nil => intro l; simp
  | cons c rest ih =>
      intro l
      simp only [List.map_cons, List.flatten_cons, List.append_assoc]
      rw [escAux_escape_char]
      exact ih l

theorem data_foldl_append :
    ∀ (ls : List String) (acc : String),
      (ls.foldl (fun r s => r ++ s) acc).data =
        acc.data ++ (ls.map String.data).flatten := by
  intro ls
  induction ls with
  | nil => intro acc; simp
  | cons s rest ih =>
      intro acc
      simp only [List.foldl_cons, List.map_cons, List.flatten_cons]
      rw [ih, String.data_append]
      simp

theorem data_join (ls : List String) :
    (String.join ls).data = (ls.map String.data).flatten := by
  have := data_foldl_append ls ""
  simpa [String.join] using this

theorem escFragOk_html_escape (s : String) : escFragOk (html_escape s) = true := by
  unfold escFragOk html_escape
  rw [data_join]
  rw [show (s.data.map html_escape_char).map String.data =
    s.data.map fun c => (html_escape_char c).data from by simp [List.map_map]]
  have h := escAux_escape_list s.data []
  rw [List.append_nil] at h
  rw [h]
  rfl

theorem escFragOk_escape_char (c : Char) :
    escFragOk (html_escape_char c) = true := by
  unfold escFragOk
  have h := escAux_escape_char c []
  rw [List.append_nil] at h
  rw [h]
  rfl

theorem escAux_all_plain :
    ∀ l : List Char, (∀ c ∈ l, c ≠ '<' ∧ c ≠ '>' ∧ c ≠ '&') →
      escScan [] l = true := by
  intro l
  induction l with
  | nil => intro _; rfl
  | cons c rest ih =>
      intro h
      obtain ⟨h1, h2, h3⟩ := h c (by simp)
      rw [escAux_plain c h1 h2 h3]
      exact ih fun x hx => h x (by simp [hx])

theorem digitChar_safe (m : Nat) (hm : m < 10) :
    Nat.digitChar m ≠ '<' ∧ Nat.digitChar m ≠ '>' ∧ Nat.digitChar m ≠ '&' := by
  interval_cases m <;> exact ⟨by decide, by decide, by decide⟩

theorem toDigitsCore_safe :
    ∀ (fuel n : Nat) (ds : List Char),
      (∀ c ∈ ds, c ≠ '<' ∧ c ≠ '>' ∧ c ≠ '&') →
      ∀ c ∈ Nat.toDigitsCore 10 fuel n ds, c ≠ '<' ∧ c ≠ '>' ∧ c ≠ '&' := by
  intro fuel
  induction fuel with
  | zero =>
      intro n ds hds c hc
      simp only [Nat.toDigitsCore] at hc
      exact hds c hc
  | succ k ih =>
      intro n ds hds c hc
      simp only [Nat.toDigitsCore] at hc
      by_cases hz : n / 10 = 0
      · rw [if_pos hz] at hc
        rcases List.mem_cons.mp hc with rfl | hmem
        · exact digitChar_safe _ (Nat.mod_lt n (by omega))
        · exact hds c hmem
      · rw [if_neg hz] at hc
        refine ih (n / 10) _ ?_ c hc
        intro x hx
        rcases List.mem_cons.mp hx with rfl | hmem
        · exact digitChar_safe _ (Nat.mod_lt n (by omega))
        · exact hds x hmem

theorem nat_repr_safe (n : Nat) :
    ∀ c ∈ (Nat.repr n).data, c ≠ '<' ∧ c ≠ '>' ∧ c ≠ '&' := by
  intro c hc
  have hdata : (Nat.repr n).data = Nat.toDigits 10 n := rfl
  rw [hdata] at hc
  exact toDigitsCore_safe (n + 1) n [] (by intro x hx; simp at hx) c hc

theorem escFragOk_toString_int (u : Int) : escFragOk (toString u) = true := by
  unfold escFragOk
  apply escAux_all_plain
  cases u with
  | ofNat m =>
      intro c hc
      exact nat_repr_safe m c hc
  | negSucc m =>
      intro c hc
      rw [show (toString (Int.negSucc m)).data = '-' :: (Nat.repr (m + 1)).data
        from by rw [show toString (Int.negSucc m) = "-" ++ Nat.repr (m + 1) from rfl,
          String.data_append]; rfl] at hc
      rcases List.mem_cons.mp hc with rfl | hmem
      · exact ⟨by decide, by decide, by decide⟩
      · exact nat_repr_safe (m + 1) c hmem

/-! ## Theorems: tag shapes of the span builder and merger -/

theorem basic_tags_safe (etype : String) (href : Option String) (uid : Option Int)
    (o c : String) (h : basic_tags_for_type etype href uid = some (o, c)) :
    openTagSafe o ∧ c ∈ fixedCloseTags := by
  by_cases h1 : etype = "bold"
  · subst h1
    have h' : some (("<b>" : String), ("</b>" : String)) = some (o, c) := h
    injection h' with hh
    injection hh with ho hc
    subst ho; subst hc
    exact ⟨Or.inl (by decide), by decide⟩
  by_cases h2 : etype = "italic"
  · subst h2
    have h' : some (("<i>" : String), ("</i>" : String)) = some (o, c) := h
    injection h' with hh
    injection hh with ho hc
    subst ho; subst hc
    exact ⟨Or.inl (by decide), by decide⟩
  by_cases h3 : etype = "underline"
  · subst h3
    have h' : some (("<u>" : String), ("</u>" : String)) = some (o, c) := h
    injection h' with hh
    injection hh with ho hc
    subst ho; subst hc
    exact ⟨Or.inl (by decide), by decide⟩
  by_cases h4 : etype = "strikethrough"
  · subst h4
    have h' : some (("<s>" : String), ("</s>" : String)) = some (o, c) := h
    injection h' with hh
    injection hh with ho hc
    subst ho; subst hc
    exact ⟨Or.inl (by decide), by decide⟩
  by_cases h5 : etype = "spoiler"
  · subst h5
    have h' : some (("<span class=\"tg-spoiler\">" : String), ("</span>" : String)) =
        some (o, c) := h
    injection h' with hh
    injection hh with ho hc
    subst ho; subst hc
    exact ⟨Or.inl (by decide), by decide⟩
  by_cases h6 : etype = "code"
  · subst h6
    have h' : some (("<code>" : String), ("</code>" : String)) = some (o, c) := h
    injection h' with hh
    injection hh with ho hc
    subst ho; subst hc
    exact ⟨Or.inl (by decide), by decide⟩
  by_cases h7 : etype = "pre"
  · subst h7
    have h' : some (("<pre>" : String), ("</pre>" : String)) = some (o, c) := h
    injection h' with hh
    injection hh with ho hc
    subst ho; subst hc
    exact ⟨Or.inl (by decide), by decide⟩
  by_cases h8 : etype = "text_link"
  · subst h8
    cases href with
    | none => exact Option.noConfusion h
    | some hs =>
        by_cases he : hs = ""
        · subst he
          exact Option.noConfusion h
        · have h' : (if hs = "" then (none : Option (String × String))
              else some ("<a href=\"" ++ html_escape hs ++ "\">", "</a>")) =
              some (o, c) := h
          rw [if_neg he] at h'
          injection h' with hh
          injection hh with ho hc
          subst ho; subst hc
          exact ⟨Or.inr (Or.inl ⟨hs, Or.inl rfl⟩), by decide⟩
  by_cases h9 : etype = "text_mention"
  · subst h9
    cases uid with
    | none => exact Option.noConfusion h
    | some u =>
        by_cases hu : u = 0
        · subst hu
          exact Option.noConfusion h
        · have h' : (if u = 0 then (none : Option (String × String))
              else some ("<a href=\"tg://user?id=" ++ toString u ++ "\">", "</a>")) =
              some (o, c) := h
          rw [if_neg hu] at h'
          injection h' with hh
          injection hh with ho hc
          subst ho; subst hc
          exact ⟨Or.inr (Or.inr ⟨u, rfl, escFragOk_toString_int u⟩), by decide⟩
  by_cases h10 : etype = "url"
  · subst h10
    cases href with
    | none => exact Option.noConfusion h
    | some hs =>
        by_cases he : hs = ""
        · subst he
          exact Option.noConfusion h
        · have h' : (if hs = "" then (none : Option (String × String))
              else some ("<a href=\"" ++ html_escape hs ++ "\">", "</a>")) =
              some (o, c) := h
          rw [if_neg he] at h'
          injection h' with hh
          injection hh with ho hc
          subst ho; subst hc
          exact ⟨Or.inr (Or.inl ⟨hs, Or.inl rfl⟩), by decide⟩
  by_cases h11 : etype = "email"
  · subst h11
    cases href with
    | none => exact Option.noConfusion h
    | some hs =>
        by_cases he : hs = ""
        · subst he
          exact Option.noConfusion h
        · have h' : (if hs = "" then (none : Option (String × String))
              else some ("<a href=\"mailto:" ++ html_escape hs ++ "\">", "</a>")) =
              some (o, c) := h
          rw [if_neg he] at h'
          injection h' with hh
          injection hh with ho hc
          subst ho; subst hc
          exact ⟨Or.inr (Or.inl ⟨hs, Or.inr (Or.inl rfl)⟩), by decide⟩
  by_cases h12 : etype = "mention"
  · subst h12
    cases href with
    | none => exact Option.noConfusion h
    | some hs =>
        by_cases he : hs = ""
        · subst he
          exact Option.noConfusion h
        · have h' : (if hs = "" then (none : Option (String × String))
              else some ("<a href=\"https://t.me/" ++ html_escape hs ++ "\">", "</a>")) =
              some (o, c) := h
          rw [if_neg he] at h'
          injection h' with hh
          injection hh with ho hc
          subst ho; subst hc
          exact ⟨Or.inr (Or.inl ⟨hs, Or.inr (Or.inr rfl)⟩), by decide⟩
  by_cases h13 : etype = "blockquote"
  · subst h13
    have h' : some (("<blockquote>" : String), ("</blockquote>" : String)) =
        some (o, c) := h
    injection h' with hh
    injection hh with ho hc
    subst ho; subst hc
    exact ⟨Or.inl (by decide), by decide⟩
  · unfold basic_tags_for_type at h
    rw [if_neg h1, if_neg h2, if_neg h3, if_neg h4, if_neg h5, if_neg h6, if_neg h7,
      if_neg h8, if_neg h9, if_neg h10, if_neg h11, if_neg h12, if_neg h13] at h
    exact Option.noConfusion h

theorem span_of_tags_fields {idx : Nat} {etype : String} {start stop : Nat}
    {tags : Option (String × String)} {sp : Span}
    (h : span_of_tags idx etype start stop tags = some sp) :
    tags = some (sp.openTag, sp.closeTag) ∧ sp.sid = idx := by
  cases tags with
  | none => exact Option.noConfusion h
  | some pr =>
      cases pr with
      | mk o c =>
          injection h with hh
          subst hh
          exact ⟨rfl, rfl⟩

theorem build_span_fields (text : List Char) (idx : Nat) (e : MessageEntity)
    (sp : Span) (h : build_span text idx e = some sp) :
    (openTagSafe sp.openTag ∧ sp.closeTag ∈ fixedCloseTags) ∧ sp.sid = idx := by
  simp only [build_span] at h
  split_ifs at h <;>
    first
      | exact Option.noConfusion h
      | (obtain ⟨htags, hsid⟩ := span_of_tags_fields h
         exact ⟨basic_tags_safe _ _ _ _ _ htags, hsid⟩)

theorem build_raw_aux_safe (text : List Char) :
    ∀ (ents : List MessageEntity) (i : Nat),
      ∀ sp ∈ build_raw_aux text i ents,
        openTagSafe sp.openTag ∧ sp.closeTag ∈ fixedCloseTags := by
  intro ents
  induction ents with
  | nil => intro i sp hsp; simp [build_raw_aux] at hsp
  | cons e rest ih =>
      intro i sp hsp
      rw [build_raw_aux] at hsp
      cases hbs : build_span text i e with
      | none =>
          rw [hbs] at hsp
          exact ih (i + 1) sp hsp
      | some s =>
          rw [hbs] at hsp
          rcases List.mem_cons.mp hsp with rfl | hmem
          · exact (build_span_fields text i e sp hbs).1
          · exact ih (i + 1) sp hmem

theorem mergeRun_tags (text : List Char) (Q : String → String → Prop) :
    ∀ (rest : List Span) (cur : Span), Q cur.openTag cur.closeTag →
      (∀ x ∈ rest, Q x.openTag x.closeTag) →
      ∀ y ∈ mergeRun text cur rest, Q y.openTag y.closeTag := by
  intro rest
  induction rest with
  | nil =>
      intro cur hc _ y hy
      rw [mergeRun, List.mem_singleton] at hy
      subst hy
      exact hc
  | cons nxt rs ih =>
      intro cur hc hrest y hy
      have hy' : y ∈ (if pySlice text cur.stop nxt.start ≠ [] ∧
          ¬ (pySlice text cur.stop nxt.start).all isPyWhitespace then
            cur :: mergeRun text nxt rs
          else mergeRun text { cur with stop := max cur.stop nxt.stop } rs) := hy
      by_cases hg : pySlice text cur.stop nxt.start ≠ [] ∧
          ¬ (pySlice text cur.stop nxt.start).all isPyWhitespace
      · rw [if_pos hg] at hy'
        rcases List.mem_cons.mp hy' with rfl | hmem
        · exact hc
        · exact ih nxt (hrest nxt (by simp)) (fun x hx => hrest x (by simp [hx])) y hmem
      · rw [if_neg hg] at hy'
        exact ih { cur with stop := max cur.stop nxt.stop } hc
          (fun x hx => hrest x (by simp [hx])) y hy'

theorem merge_tags (text : List Char) (spans : List Span)
    (Q : String → String → Prop)
    (hQ : ∀ sp ∈ spans, Q sp.openTag sp.closeTag) :
    ∀ sp ∈ merge_mergeable_spans_fixed text spans, Q sp.openTag sp.closeTag := by
  intro sp hsp
  unfold merge_mergeable_spans_fixed at hsp
  rcases List.mem_append.mp hsp with hm | ho
  · obtain ⟨l, hl, hspl⟩ := List.mem_flatten.mp hm
    obtain ⟨t, _, rfl⟩ := List.mem_map.mp hl
    unfold merge_one_type at hspl
    cases hsort : pySort spanLe (spans.filter fun s => s.type == t) with
    | nil => rw [hsort] at hspl; simp at hspl
    | cons cur rest =>
        rw [hsort] at hspl
        refine mergeRun_tags text Q rest cur ?_ ?_ sp hspl
        · have hcur : cur ∈ pySort spanLe (spans.filter fun s => s.type == t) := by
            rw [hsort]; exact List.mem_cons_self _ _
          exact hQ cur (List.mem_filter.mp ((mem_pySort _ _ _).mp hcur)).1
        · intro x hx
          have hx' : x ∈ pySort spanLe (spans.filter fun s => s.type == t) := by
            rw [hsort]; exact List.mem_cons_of_mem _ hx
          exact hQ x (List.mem_filter.mp ((mem_pySort _ _ _).mp hx')).1
  · exact hQ sp (List.mem_filter.mp ho).1

theorem pipeline_tags_safe (text : List Char) (ents : List MessageEntity) :
    ∀ sp ∈ merge_mergeable_spans_fixed text (build_raw_spans text ents),
      openTagSafe sp.openTag ∧ sp.closeTag ∈ fixedCloseTags := by
  exact merge_tags text (build_raw_spans text ents)
    (fun o c => openTagSafe o ∧ c ∈ fixedCloseTags)
    (fun sp hsp => build_raw_aux_safe text ents 0 sp hsp)

/-! ## Theorems: the offset translator -/

theorem utf16Len_nil : utf16Len [] = 0 := rfl

theorem utf16Len_cons (c : Char) (l : List Char) :
    utf16Len (c :: l) = (if c.toNat > 0xFFFF then (2 : Int) else 1) + utf16Len l := by
  simp [utf16Len]

theorem utf16Len_nonneg : ∀ l : List Char, 0 ≤ utf16Len l := by
  intro l
  induction l with
  | nil => simp [utf16Len]
  | cons c rest ih =>
      rw [utf16Len_cons]
      have : (0 : Int) ≤ if c.toNat > 0xFFFF then (2 : Int) else 1 := by
        split_ifs <;> omega
      omega

theorem utf16_loop_not_lt (up : Int) (s : List Char) (u : Int) (i : Nat)
    (h : ¬ u < up) : utf16_loop up s u i = i := by
  cases s <;> simp [utf16_loop, h]

theorem utf16_loop_shift (up : Int) :
    ∀ (s : List Char) (u : Int) (i : Nat),
      utf16_loop up s u i = i + utf16_loop up s u 0 := by
  intro s
  induction s with
  | nil => intro u i; simp [utf16_loop]
  | cons c rest ih =>
      intro u i
      simp only [utf16_loop]
      by_cases h : u < up
      · rw [if_pos h, if_pos h,
          ih (u + (if c.toNat > 0xFFFF then 2 else 1)) (i + 1),
          ih (u + (if c.toNat > 0xFFFF then 2 else 1)) (0 + 1)]
        omega
      · rw [if_neg h, if_neg h]
        omega

theorem utf16_loop_le_length (up : Int) :
    ∀ (s : List Char) (u : Int), utf16_loop up s u 0 ≤ s.length := by
  intro s
  induction s with
  | nil => intro u; simp [utf16_loop]
  | cons c rest ih =>
      intro u
      simp only [utf16_loop]
      by_cases h : u < up
      · rw [if_pos h, utf16_loop_shift]
        have := ih (u + (if c.toNat > 0xFFFF then 2 else 1))
        simp only [List.length_cons]
        omega
      · rw [if_neg h]
        simp

theorem utf16_loop_before (up : Int) :
    ∀ (s : List Char) (u : Int), u < up →
      ∀ j, j < utf16_loop up s u 0 → u + utf16Len (s.take j) < up := by
  intro s
  induction s with
  | nil =>
      intro u hu j hj
      rw [utf16_loop] at hj
      omega
  | cons c rest ih =>
      intro u hu j hj
      rw [utf16_loop, if_pos hu, utf16_loop_shift] at hj
      cases j with
      | zero =>
          simp only [List.take_zero, utf16Len_nil]
          omega
      | succ j' =>
          simp only [List.take_succ_cons, utf16Len_cons]
          by_cases h2 : u + (if c.toNat > 0xFFFF then (2 : Int) else 1) < up
          · have := ih (u + (if c.toNat > 0xFFFF then 2 else 1)) h2 j' (by omega)
            omega
          · rw [utf16_loop_not_lt up rest _ 0 h2] at hj
            omega

theorem utf16_loop_stop (up : Int) :
    ∀ (s : List Char) (u : Int), u < up →
      u + utf16Len (s.take (utf16_loop up s u 0)) < up →
      utf16_loop up s u 0 = s.length := by
  intro s
  induction s with
  | nil => intro u _ _; rfl
  | cons c rest ih =>
      intro u hu hstop
      rw [utf16_loop, if_pos hu, utf16_loop_shift] at hstop ⊢
      by_cases h2 : u + (if c.toNat > 0xFFFF then (2 : Int) else 1) < up
      · have harg : u + (if c.toNat > 0xFFFF then (2 : Int) else 1) +
            utf16Len (rest.take (utf16_loop up rest
              (u + (if c.toNat > 0xFFFF then 2 else 1)) 0)) < up := by
          rw [show (1 : Nat) + utf16_loop up rest
              (u + (if c.toNat > 0xFFFF then 2 else 1)) 0 =
            utf16_loop up rest (u + (if c.toNat > 0xFFFF then 2 else 1)) 0 + 1
            from by omega, List.take_succ_cons, utf16Len_cons] at hstop
          omega
        have := ih (u + (if c.toNat > 0xFFFF then 2 else 1)) h2 harg
        simp only [this, List.length_cons]
        omega
      · rw [utf16_loop_not_lt up rest _ 0 h2] at hstop
        simp only [List.take_succ_cons, List.take_zero, utf16Len_cons,
          utf16Len_nil] at hstop
        omega

theorem utf16_loop_total (up : Int) :
    ∀ (s : List Char) (u : Int), u + utf16Len s < up →
      utf16_loop up s u 0 = s.length := by
  intro s
  induction s with
  | nil => intro u _; rfl
  | cons c rest ih =>
      intro u htot
      rw [utf16Len_cons] at htot
      have hw : (1 : Int) ≤ if c.toNat > 0xFFFF then (2 : Int) else 1 := by
        split_ifs <;> omega
      have hrest := utf16Len_nonneg rest
      have hu : u < up := by omega
      rw [utf16_loop, if_pos hu, utf16_loop_shift,
        ih (u + (if c.toNat > 0xFFFF then 2 else 1)) (by omega)]
      simp only [List.length_cons]
      omega

theorem utf16Len_bmp :
    ∀ s : List Char, (∀ c ∈ s, ¬ c.toNat > 0xFFFF) →
      utf16Len s = (s.length : Int) := by
  intro s
  induction s with
  | nil => intro _; rfl
  | cons c rest ih =>
      intro h
      rw [utf16Len_cons, if_neg (h c (by simp)), ih (fun x hx => h x (by simp [hx]))]
      simp
      omega

/-! ## Theorems: rendering with an empty span set -/

theorem startsAt_nil (pos : Nat) : startsAt [] pos = [] := rfl

theorem endsAt_nil (pos : Nat) : endsAt [] pos = [] := rfl

theorem renderPos_nil (text : List Char) (acc : List Nat × List Item) (i : Nat) :
    renderPos [] text acc i =
      (acc.1, acc.2 ++ if i < text.length then
        [Item.chr (html_escape_char (text.getD i ' '))] else []) := by
  by_cases hi : i < text.length <;>
    simp [renderPos, renderOpensChar, endsAt, startsAt, pySort, processCloses, hi]

theorem range'_foldl_nil_spans (text : List Char) :
    ∀ (k i : Nat), i + k = text.length + 1 →
      ∀ (st : List Nat) (out : List Item),
        (List.range' i k).foldl (renderPos [] text) (st, out) =
          (st, out ++ (text.drop i).map fun c => Item.chr (html_escape_char c)) := by
  intro k
  induction k with
  | zero =>
      intro i hi st out
      have hdrop : text.drop i = [] := List.drop_eq_nil_of_le (by omega)
      simp [hdrop]
  | succ k ih =>
      intro i hi st out
      rw [List.range'_succ, List.foldl_cons, renderPos_nil]
      by_cases hi' : i < text.length
      · rw [if_pos hi', ih (i + 1) (by omega)]
        have hdrop : text.drop i = text.getD i ' ' :: text.drop (i + 1) := by
          rw [List.getD_eq_getElem _ _ hi']
          exact List.drop_eq_getElem_cons hi'
        rw [hdrop]
        simp
      · rw [if_neg hi', ih (i + 1) (by omega)]
        have h1 : text.drop i = [] := List.drop_eq_nil_of_le (by omega)
        have h2 : text.drop (i + 1) = [] := List.drop_eq_nil_of_le (by omega)
        simp [h1, h2]

theorem finishRender_nil (text : List Char) :
    finishRender [] text = text.map fun c => Item.chr (html_escape_char c) := by
  unfold finishRender
  rw [List.range_eq_range' (text.length + 1),
    range'_foldl_nil_spans text (text.length + 1) 0 (by omega) [] []]
  simp

theorem to_telegram_items_no_spans (text : List Char) (ents : List MessageEntity)
    (ht : text ≠ [])
    (h : merge_mergeable_spans text (build_raw_spans text ents) = Except.ok []) :
    to_telegram_items text ents =
      Except.ok (text.map fun c => Item.chr (html_escape_char c)) := by
  unfold to_telegram_items
  rw [if_neg ht, h]
  simp only [Except.map]
  rw [finishRender_nil]

theorem to_telegram_html_no_spans (text : List Char) (ents : List MessageEntity)
    (ht : text ≠ [])
    (h : merge_mergeable_spans text (build_raw_spans text ents) = Except.ok []) :
    to_telegram_html text ents = Except.ok (html_escape_list text) := by
  unfold to_telegram_html
  rw [to_telegram_items_no_spans text ents ht h]
  simp only [Except.map]
  have hjoin : String.join ((text.map fun c =>
      Item.chr (html_escape_char c)).map Item.str) = html_escape_list text := by
    unfold html_escape_list
    rw [List.map_map]
    rfl
  rw [hjoin]

/-! ## Theorems: span identities and dropped annotations -/

theorem build_raw_aux_sid_ge (text : List Char) :
    ∀ (ents : List MessageEntity) (i : Nat),
      ∀ sp ∈ build_raw_aux text i ents, i ≤ sp.sid := by
  intro ents
  induction ents with
  | nil => intro i sp hsp; simp [build_raw_aux] at hsp
  | cons e rest ih =>
      intro i sp hsp
      rw [build_raw_aux] at hsp
      cases hbs : build_span text i e with
      | none =>
          rw [hbs] at hsp
          have := ih (i + 1) sp hsp
          omega
      | some s =>
          rw [hbs] at hsp
          rcases List.mem_cons.mp hsp with rfl | hmem
          · rw [(build_span_fields text i e sp hbs).2]
          · have := ih (i + 1) sp hmem
            omega

theorem build_raw_aux_pairwise (text : List Char) :
    ∀ (ents : List MessageEntity) (i : Nat),
      (build_raw_aux text i ents).Pairwise fun a b => a.sid ≠ b.sid := by
  intro ents
  induction ents with
  | nil => intro i; simp [build_raw_aux]
  | cons e rest ih =>
      intro i
      rw [build_raw_aux]
      cases hbs : build_span text i e with
      | none => exact ih (i + 1)
      | some s =>
          refine List.Pairwise.cons ?_ (ih (i + 1))
          intro b hb
          have hbge := build_raw_aux_sid_ge text rest (i + 1) b hb
          have hsid := (build_span_fields text i e s hbs).2
          omega

theorem stripWs_eq_nil {l : List Char} (h : ∀ c ∈ l, isPyWhitespace c = true) :
    stripWs l = [] := by
  unfold stripWs
  rw [List.dropWhile_eq_nil_iff.mpr h]
  rfl

theorem build_span_ws_drop (text : List Char) (idx : Nat) (e : MessageEntity)
    (hmerge : e.type ∈ MERGEABLE)
    (hws : ∀ c ∈ pySlice text (utf16_units_to_py_index text e.offset)
      (utf16_units_to_py_index text (e.offset + e.length)),
      isPyWhitespace c = true) :
    build_span text idx e = none := by
  simp only [build_span]
  by_cases hb : utf16_units_to_py_index text e.offset ≥
      utf16_units_to_py_index text (e.offset + e.length) ∨
      utf16_units_to_py_index text (e.offset + e.length) > text.length
  · rw [if_pos hb]
  · rw [if_neg hb, if_pos ⟨hmerge, stripWs_eq_nil hws⟩]

theorem build_span_zero_user (text : List Char) (idx : Nat) (e : MessageEntity)
    (htype : e.type = "text_mention") (huser : e.user = some ⟨0⟩) :
    build_span text idx e = none := by
  simp only [build_span]
  rw [htype, huser]
  by_cases hb : utf16_units_to_py_index text e.offset ≥
      utf16_units_to_py_index text (e.offset + e.length) ∨
      utf16_units_to_py_index text (e.offset + e.length) > text.length
  · rw [if_pos hb]
  · rw [if_neg hb, if_neg (fun hcon => absurd hcon.1 (by decide))]
    rfl

/-! ## Theorems: the merge scan -/

theorem spanLe_iff (a b : Span) :
    spanLe a b = true ↔
      (a.start < b.start ∨ (a.start = b.start ∧ a.stop ≤ b.stop)) := by
  simp [spanLe]

theorem mergeRun_flush (text : List Char) (cur nxt : Span) (rest : List Span)
    (h : pySlice text cur.stop nxt.start ≠ [] ∧
      ∃ c ∈ pySlice text cur.stop nxt.start, ¬ isPyWhitespace c = true) :
    mergeRun text cur (nxt :: rest) = cur :: mergeRun text nxt rest := by
  have hred : mergeRun text cur (nxt :: rest) =
      if pySlice text cur.stop nxt.start ≠ [] ∧
          ¬ (pySlice text cur.stop nxt.start).all isPyWhitespace then
        cur :: mergeRun text nxt rest
      else mergeRun text { cur with stop := max cur.stop nxt.stop } rest := rfl
  rw [hred, if_pos]
  refine ⟨h.1, ?_⟩
  obtain ⟨c, hc, hnw⟩ := h.2
  intro hall
  exact hnw (List.all_eq_true.mp hall c hc)

theorem mergeRun_extend (text : List Char) (cur nxt : Span) (rest : List Span)
    (h : ∀ c ∈ pySlice text cur.stop nxt.start, isPyWhitespace c = true) :
    mergeRun text cur (nxt :: rest) =
      mergeRun text { cur with stop := max cur.stop nxt.stop } rest := by
  have hred : mergeRun text cur (nxt :: rest) =
      if pySlice text cur.stop nxt.start ≠ [] ∧
          ¬ (pySlice text cur.stop nxt.start).all isPyWhitespace then
        cur :: mergeRun text nxt rest
      else mergeRun text { cur with stop := max cur.stop nxt.stop } rest := rfl
  rw [hred, if_neg]
  rintro ⟨_, hnall⟩
  exact hnall (List.all_eq_true.mpr h)

theorem utf16_bmp_index (s : List Char) (hbmp : ∀ c ∈ s, ¬ c.toNat > 0xFFFF)
    (k : Nat) (hk : k ≤ s.length) : utf16_units_to_py_index s (k : Int) = k := by
  rcases Nat.eq_zero_or_pos k with rfl | hpos
  · simp [utf16_units_to_py_index]
  · unfold utf16_units_to_py_index
    rw [if_neg (by exact_mod_cast Nat.not_le.mpr hpos)]
    have hbefore := utf16_loop_before (k : Int) s 0 (by exact_mod_cast hpos)
    have hle : utf16_loop (k : Int) s 0 0 ≤ s.length := utf16_loop_le_length (k : Int) s 0
    have hstop := utf16_loop_stop (k : Int) s 0 (by exact_mod_cast hpos)
    have htake : ∀ j : Nat, utf16Len (s.take j) = ((min j s.length : Nat) : Int) := by
      intro j
      rw [utf16Len_bmp (s.take j) fun c hc => hbmp c (List.mem_of_mem_take hc)]
      simp [List.length_take]
    have hrk : utf16_loop (k : Int) s 0 0 ≤ k := by
      by_contra hgt
      push_neg at hgt
      have hb := hbefore k hgt
      rw [htake k, Nat.min_eq_left hk] at hb
      omega
    have hkr : k ≤ utf16_loop (k : Int) s 0 0 := by
      by_contra hlt
      push_neg at hlt
      have hmin : utf16Len (s.take (utf16_loop (k : Int) s 0 0)) =
          ((utf16_loop (k : Int) s 0 0 : Nat) : Int) := by
        rw [htake _, Nat.min_eq_left hle]
      have hfin := hstop (by rw [hmin]; omega)
      omega
    omega

/-! ## Claim theorems -/

/-- C1 (code bug): on the 8-character text with a bold span over [0,5) and
a link span over [3,8), the source never returns the claimed markup — the
link span is non-mergeable, so `merge_mergeable_spans`' first partition
loop calls `setdefault` on the list `others` and raises `AttributeError`.
The renderer itself does implement the claimed close-until/reopen
resolution: under the corrected partition announced by the source's own
line-122 comment, the same input produces exactly the claimed markup (bold
open, chars 0-3, link open, chars 3-5, link temporarily closed so bold can
close, link reopened, chars 5-8, link close), accepted by the nesting
checker. -/
theorem claim_C1 :
    to_telegram_html "abcdefgh".data
      [{ type := "bold", offset := 0, length := 5 },
       { type := "text_link", offset := 3, length := 5, url := some "u" }] =
      Except.error "AttributeError: 'list' object has no attribute 'setdefault'" ∧
    to_telegram_html_fixed "abcdefgh".data
      [{ type := "bold", offset := 0, length := 5 },
       { type := "text_link", offset := 3, length := 5, url := some "u" }] =
      "<b>abc<a href=\"u\">de</a></b><a href=\"u\">fgh</a>" ∧
    to_telegram_items_fixed "abcdefgh".data
      [{ type := "bold", offset := 0, length := 5 },
       { type := "text_link", offset := 3, length := 5, url := some "u" }] =
      [Item.openT 0 "<b>", Item.chr "a", Item.chr "b", Item.chr "c",
       Item.openT 1 "<a href=\"u\">", Item.chr "d", Item.chr "e",
       Item.closeT 1 "</a>", Item.closeT 0 "</b>", Item.openT 1 "<a href=\"u\">",
       Item.chr "f", Item.chr "g", Item.chr "h", Item.closeT 1 "</a>"] ∧
    checkFrom [] (to_telegram_items_fixed "abcdefgh".data
      [{ type := "bold", offset := 0, length := 5 },
       { type := "text_link", offset := 3, length := 5, url := some "u" }]) =
      some [] := by
  refine ⟨rfl, by decide, by decide, by decide⟩

/-- C2 (code bug): the claim quantifies over every input, but the source
raises `AttributeError` (returning no string) on any input with a
surviving non-mergeable span — shown here on a concrete failing input.
Balance itself holds everywhere the source does return: every item list
the faithful pipeline wraps in `Except.ok` is accepted by the stack
checker with an empty final stack, has equal open and close tag counts,
and every prefix passes the checker; the corrected pipeline satisfies all
three on every input. -/
theorem claim_C2 :
    to_telegram_html "ab".data
      [{ type := "text_link", offset := 0, length := 2, url := some "u" }] =
      Except.error "AttributeError: 'list' object has no attribute 'setdefault'" ∧
    (∀ (text : List Char) (ents : List MessageEntity) (its : List Item),
      to_telegram_items text ents = Except.ok its →
      checkFrom [] its = some [] ∧
      countOpens its = countCloses its ∧
      (its.inits.all fun p => (checkFrom [] p).isSome) = true) ∧
    (∀ (text : List Char) (ents : List MessageEntity),
      checkFrom [] (to_telegram_items_fixed text ents) = some [] ∧
      countOpens (to_telegram_items_fixed text ents) =
        countCloses (to_telegram_items_fixed text ents) ∧
      ((to_telegram_items_fixed text ents).inits.all
        fun p => (checkFrom [] p).isSome) = true) := by
  have hfix : ∀ (text : List Char) (ents : List MessageEntity),
      checkFrom [] (to_telegram_items_fixed text ents) = some [] ∧
      countOpens (to_telegram_items_fixed text ents) =
        countCloses (to_telegram_items_fixed text ents) ∧
      ((to_telegram_items_fixed text ents).inits.all
        fun p => (checkFrom [] p).isSome) = true := by
    intro text ents
    have h := (to_telegram_items_good text ents).1
    refine ⟨h, ?_, ?_⟩
    · have hc := checkFrom_count (to_telegram_items_fixed text ents) [] [] h
      simpa using hc
    · rw [List.all_eq_true]
      intro p hp
      obtain ⟨l2, hl2⟩ := (List.mem_inits _ _).mp hp
      rw [← hl2] at h
      exact checkFrom_isSome_of_append h
  refine ⟨rfl, ?_, hfix⟩
  intro text ents its h
  rw [to_telegram_items_ok text ents its h]
  exact hfix text ents

/-- Witness for C2 at a concrete input the source does not crash on: the
returned item list of "hi" with no annotations is balanced. -/
theorem claim_C2_witness :
    checkFrom [] [Item.chr "h", Item.chr "i"] = some [] ∧
    countOpens [Item.chr "h", Item.chr "i"] =
      countCloses [Item.chr "h", Item.chr "i"] ∧
    (([Item.chr "h", Item.chr "i"] : List Item).inits.all
      fun p => (checkFrom [] p).isSome) = true :=
  claim_C2.2.1 "hi".data [] [Item.chr "h", Item.chr "i"] rfl

/-- C3 as stated is false: for the text "😀abc" with a bold annotation
over UTF-16 units [2,5), `to_telegram_html` does not return "<b>abc</b>" —
it returns `Except.ok "😀<b>abc</b>"`: the leading emoji is also emitted
(escaped, i.e. unchanged) before the bold open tag, and that string
differs from the claimed one. -/
theorem claim_C3_counterexample :
    to_telegram_html "😀abc".data
      [{ type := "bold", offset := 2, length := 3 }] =
      Except.ok "😀<b>abc</b>" ∧
    ("😀<b>abc</b>" == "<b>abc</b>") = false := by
  refine ⟨rfl, by decide⟩

/-- C3 (amended): for the text "😀abc" with a bold annotation over UTF-16
units [2,5), offset 2 skips the two-unit emoji so the bold span covers
exactly "abc"; the full output is "😀<b>abc</b>" — the emoji itself
precedes the bold open tag (the bold-only span set never reaches the
merger's crash path). -/
theorem claim_C3 :
    to_telegram_html "😀abc".data [{ type := "bold", offset := 2, length := 3 }] =
      Except.ok "😀<b>abc</b>" ∧
    utf16_units_to_py_index "😀abc".data 2 = 1 ∧
    utf16_units_to_py_index "😀abc".data 5 = 4 := by
  refine ⟨rfl, by decide, by decide⟩

/-- C4: the offset translator returns 0 for `unit_pos ≤ 0`; is the
identity on positions within a BMP-only text; for positive `unit_pos`
consumes characters (2 units above the BMP, 1 otherwise, the accounting of
`utf16Len`) stopping as soon as the accumulated units reach or exceed
`unit_pos` (every strict prefix of the consumed characters is strictly
short of `unit_pos`, and if even the consumed characters are short the
whole text was consumed); and returns the text length whenever `unit_pos`
exceeds the total UTF-16 unit length. -/
theorem claim_C4 (s : List Char) (u : Int) :
    (u ≤ 0 → utf16_units_to_py_index s u = 0) ∧
    ((∀ c ∈ s, ¬ c.toNat > 0xFFFF) →
      ∀ k : Nat, k ≤ s.length → utf16_units_to_py_index s (k : Int) = k) ∧
    (0 < u →
      utf16_units_to_py_index s u ≤ s.length ∧
      (∀ j, j < utf16_units_to_py_index s u → utf16Len (s.take j) < u) ∧
      (utf16Len (s.take (utf16_units_to_py_index s u)) < u →
        utf16_units_to_py_index s u = s.length)) ∧
    (utf16Len s < u → utf16_units_to_py_index s u = s.length) := by
  refine ⟨?_, ?_, ?_, ?_⟩
  · intro hu
    simp [utf16_units_to_py_index, hu]
  · intro hbmp k hk
    exact utf16_bmp_index s hbmp k hk
  · intro hu
    unfold utf16_units_to_py_index
    rw [if_neg (by omega)]
    refine ⟨utf16_loop_le_length u s 0, ?_, ?_⟩
    · intro j hj
      have hb := utf16_loop_before u s 0 hu j hj
      omega
    · intro hlt
      exact utf16_loop_stop u s 0 hu (by omega)
  · intro htot
    have hpos : 0 < u := by
      have := utf16Len_nonneg s
      omega
    unfold utf16_units_to_py_index
    rw [if_neg (by omega)]
    exact utf16_loop_total u s 0 (by omega)

/-- Witness for C4 at concrete inputs: a negative position maps to 0, a
BMP position is the identity, a positive position never overshoots the
text, and a position beyond the total unit length maps to the length. -/
theorem claim_C4_witness :
    utf16_units_to_py_index ['😀', 'a'] (-1) = 0 ∧
    utf16_units_to_py_index ['a', 'b'] ((1 : Nat) : Int) = 1 ∧
    utf16_units_to_py_index ['😀', 'a'] 1 ≤ 2 ∧
    utf16_units_to_py_index ['😀', 'a'] 9 = 2 := by
  refine ⟨(claim_C4 ['😀', 'a'] (-1)).1 (by decide),
    (claim_C4 ['a', 'b'] 1).2.1 (by decide) 1 (by decide),
    ((claim_C4 ['😀', 'a'] 1).2.2.1 (by decide)).1,
    (claim_C4 ['😀', 'a'] 9).2.2.2 (by decide)⟩

/-- C5: the merger compares spans of one mergeable kind by the `(start,
end)` lexicographic key, and its accumulator scan flushes the current span
when the text strictly between the accumulator's end and the next span's
start is non-empty and contains a non-whitespace character, and otherwise
extends the accumulator's end to the maximum of the two ends; in
particular two bold spans over "AB" and "CD" in "AB  CD" merge into a
single tag pair over the whole text. -/
theorem claim_C5 :
    (to_telegram_html "AB  CD".data
      [{ type := "bold", offset := 0, length := 2 },
       { type := "bold", offset := 4, length := 2 }] =
      Except.ok "<b>AB  CD</b>") ∧
    (∀ a b : Span, spanLe a b = true ↔
      (a.start < b.start ∨ (a.start = b.start ∧ a.stop ≤ b.stop))) ∧
    (∀ (text : List Char) (cur nxt : Span) (rest : List Span),
      pySlice text cur.stop nxt.start ≠ [] →
      (∃ c ∈ pySlice text cur.stop nxt.start, ¬ isPyWhitespace c = true) →
      mergeRun text cur (nxt :: rest) = cur :: mergeRun text nxt rest) ∧
    (∀ (text : List Char) (cur nxt : Span) (rest : List Span),
      (∀ c ∈ pySlice text cur.stop nxt.start, isPyWhitespace c = true) →
      mergeRun text cur (nxt :: rest) =
        mergeRun text { cur with stop := max cur.stop nxt.stop } rest) := by
  refine ⟨rfl, spanLe_iff, ?_, mergeRun_extend⟩
  intro text cur nxt rest h1 h2
  exact mergeRun_flush text cur nxt rest ⟨h1, h2⟩

/-- Witness for C5 at concrete spans: a punctuation gap flushes the
accumulator, a whitespace gap extends it. -/
theorem claim_C5_witness :
    mergeRun "a.b".data
      { sid := 0, type := "bold", start := 0, stop := 1, openTag := "<b>",
        closeTag := "</b>", priority := 10 }
      [{ sid := 1, type := "bold", start := 2, stop := 3, openTag := "<b>",
         closeTag := "</b>", priority := 10 }] =
      { sid := 0, type := "bold", start := 0, stop := 1, openTag := "<b>",
        closeTag := "</b>", priority := 10 } ::
        mergeRun "a.b".data
          { sid := 1, type := "bold", start := 2, stop := 3, openTag := "<b>",
            closeTag := "</b>", priority := 10 } [] ∧
    mergeRun "a b".data
      { sid := 0, type := "bold", start := 0, stop := 1, openTag := "<b>",
        closeTag := "</b>", priority := 10 }
      [{ sid := 1, type := "bold", start := 2, stop := 3, openTag := "<b>",
         closeTag := "</b>", priority := 10 }] =
      mergeRun "a b".data
        { sid := 0, type := "bold", start := 0, stop := 3, openTag := "<b>",
          closeTag := "</b>", priority := 10 } [] := by
  constructor
  · exact claim_C5.2.2.1 "a.b".data _ _ [] (by decide) (by decide)
  · exact claim_C5.2.2.2 "a b".data
      { sid := 0, type := "bold", start := 0, stop := 1, openTag := "<b>",
        closeTag := "</b>", priority := 10 }
      { sid := 1, type := "bold", start := 2, stop := 3, openTag := "<b>",
        closeTag := "</b>", priority := 10 } [] (by decide)

/-- C6 (code bug): the claim quantifies over every input, but the source
raises `AttributeError` (producing no output at all) on any input with a
surviving non-mergeable span — shown on a concrete failing input.
Escape-safety itself holds everywhere the source does return:
`html.escape` output is always an escape-safe fragment, and every item of
every item list the faithful pipeline wraps in `Except.ok` — and of the
corrected pipeline's output on every input — is escape-safe: character
items are safe fragments (no raw `<`, `>`, or non-entity `&`), open tags
are fixed templates or link templates whose entire attribute value is an
`html.escape` image (or the digits of a user id), close tags are fixed. -/
theorem claim_C6 :
    to_telegram_html "ab".data [{ type := "code", offset := 0, length := 2 }] =
      Except.error "AttributeError: 'list' object has no attribute 'setdefault'" ∧
    (∀ s : String, escFragOk (html_escape s) = true) ∧
    (∀ (text : List Char) (ents : List MessageEntity) (its : List Item),
      to_telegram_items text ents = Except.ok its → List.Forall itemSafe its) ∧
    (∀ (text : List Char) (ents : List MessageEntity),
      List.Forall itemSafe (to_telegram_items_fixed text ents)) := by
  have hfix : ∀ (text : List Char) (ents : List MessageEntity),
      List.Forall itemSafe (to_telegram_items_fixed text ents) := by
    intro text ents
    rw [List.forall_iff_forall_mem]
    intro it hit
    have hgood := (to_telegram_items_good text ents).2 it hit
    cases it with
    | chr s =>
        obtain ⟨c, _, rfl⟩ := hgood
        exact escFragOk_escape_char c
    | openT sid t =>
        obtain ⟨sp, hsp, _, rfl⟩ := hgood
        exact (pipeline_tags_safe text ents sp hsp).1
    | closeT sid t =>
        obtain ⟨sp, hsp, _, rfl⟩ := hgood
        exact (pipeline_tags_safe text ents sp hsp).2
  refine ⟨rfl, escFragOk_html_escape, ?_, hfix⟩
  intro text ents its h
  rw [to_telegram_items_ok text ents its h]
  exact hfix text ents

/-- Witness for C6 at a concrete input the source does not crash on: the
returned item list of "hi" with one bold annotation is escape-safe. -/
theorem claim_C6_witness :
    List.Forall itemSafe
      [Item.openT 0 "<b>", Item.chr "h", Item.chr "i", Item.closeT 0 "</b>"] :=
  claim_C6.2.2.1 "hi".data [{ type := "bold", offset := 0, length := 2 }]
    [Item.openT 0 "<b>", Item.chr "h", Item.chr "i", Item.closeT 0 "</b>"] rfl

/-- C7: an annotation of a mergeable kind whose covered substring is
entirely whitespace is discarded by the span builder, and the text "a  b"
with a bold annotation over the two middle spaces renders unchanged with
no tag pair. -/
theorem claim_C7 :
    (∀ (text : List Char) (idx : Nat) (e : MessageEntity),
      e.type ∈ MERGEABLE →
      (∀ c ∈ pySlice text (utf16_units_to_py_index text e.offset)
        (utf16_units_to_py_index text (e.offset + e.length)),
        isPyWhitespace c = true) →
      build_span text idx e = none) ∧
    to_telegram_html "a  b".data [{ type := "bold", offset := 1, length := 2 }] =
      Except.ok "a  b" := by
  exact ⟨build_span_ws_drop, rfl⟩

/-- Witness for C7: the concrete all-whitespace bold annotation over
"a  b" produces no span. -/
theorem claim_C7_witness :
    build_span "a  b".data 0 { type := "bold", offset := 1, length := 2 } = none :=
  claim_C7.1 "a  b".data 0 { type := "bold", offset := 1, length := 2 }
    (by decide) (by decide)

/-- C8: span identities are pairwise distinct for every input — the
builder assigns each produced span the identity of its own annotation
object (modelled as the position in the annotation list), so even two
annotations that are exact duplicates of one another yield spans with
distinct identities ([0, 1] in the duplicate example). -/
theorem claim_C8 :
    (∀ (text : List Char) (ents : List MessageEntity),
      (build_raw_spans text ents).Pairwise fun a b => a.sid ≠ b.sid) ∧
    (build_raw_spans "ab".data
      [{ type := "bold", offset := 0, length := 2 },
       { type := "bold", offset := 0, length := 2 }]).map Span.sid = [0, 1] := by
  refine ⟨?_, by decide⟩
  intro text ents
  exact build_raw_aux_pairwise text ents 0

/-- C9: empty input text yields the empty output string (before the merge
is ever reached) for every annotation list; and for non-empty text whose
span set is empty after building and merging — the exact domain where the
merge returns `Except.ok []`, in particular for an empty annotation list —
the output is exactly the escaped original text with no tags. -/
theorem claim_C9 :
    (∀ ents : List MessageEntity, to_telegram_html [] ents = Except.ok "") ∧
    (∀ (text : List Char) (ents : List MessageEntity), text ≠ [] →
      merge_mergeable_spans text (build_raw_spans text ents) = Except.ok [] →
      to_telegram_html text ents = Except.ok (html_escape_list text)) ∧
    (∀ text : List Char, text ≠ [] →
      to_telegram_html text [] = Except.ok (html_escape_list text)) := by
  refine ⟨?_, to_telegram_html_no_spans, ?_⟩
  · intro ents
    rfl
  · intro text ht
    exact to_telegram_html_no_spans text [] ht rfl

/-- Witness for C9: a non-empty text with no annotations, and a non-empty
text whose only annotation has an unknown kind, both render as the escaped
text. -/
theorem claim_C9_witness :
    to_telegram_html "hi".data [] = Except.ok (html_escape_list "hi".data) ∧
    to_telegram_html "h&".data
      [{ type := "unknown_kind", offset := 0, length := 2 }] =
      Except.ok (html_escape_list "h&".data) := by
  constructor
  · exact claim_C9.2.2 "hi".data (by decide)
  · exact claim_C9.2.1 "h&".data
      [{ type := "unknown_kind", offset := 0, length := 2 }] (by decide) rfl

/-- C10: a text_mention annotation whose attached user has identifier 0 is
dropped by the span builder — the truthiness test `and user_id` treats id
0 like an absent user — so the annotation contributes no markup and the
text renders as plain escaped text. -/
theorem claim_C10 :
    (∀ (text : List Char) (idx : Nat) (e : MessageEntity),
      e.type = "text_mention" → e.user = some ⟨0⟩ →
      build_span text idx e = none) ∧
    to_telegram_html "hi".data
      [{ type := "text_mention", offset := 0, length := 2, user := some ⟨0⟩ }] =
      Except.ok "hi" := by
  exact ⟨build_span_zero_user, rfl⟩

/-- Witness for C10: the concrete zero-id text_mention over "hi" produces
no span. -/
theorem claim_C10_witness :
    build_span "hi".data 0
      { type := "text_mention", offset := 0, length := 2, user := some ⟨0⟩ } =
      none :=
  claim_C10.1 "hi".data 0
    { type := "text_mention", offset := 0, length := 2, user := some ⟨0⟩ } rfl rfl

end TgHtmlBot
